import Mathlib

/-!
Shallow embedding of the indicator/signal core of the TuaThanTsinn dashboard
repository (`proj_util_pkg/indicators/`): the ATR and ratchet trailing-stop
computations (`technical.py`), the RSMACD boundary pipeline and signal
generation (`rsmacd_indicators.py`), the CIS + 2560 signal generation and the
shared signal deduplication walk (`cis_2560_indicators.py`), and the Sharpe
ratio (`statistics.py`).

Numeric series cells are modelled as `Option ℚ`: `none` stands for a missing
(NaN) cell, and comparisons against a missing cell evaluate to `false`, as
pandas comparisons against NaN do.
-/

set_option autoImplicit false

namespace Indicators

/-- Elementwise strict greater-than on possibly-missing cells; any comparison
against a missing cell is `false` (pandas NaN semantics). -/
def oGT : Option ℚ → Option ℚ → Bool
  | some a, some b => decide (b < a)
  | _, _ => false

/-- Elementwise strict less-than on possibly-missing cells. -/
def oLT : Option ℚ → Option ℚ → Bool
  | some a, some b => decide (a < b)
  | _, _ => false

/-- Elementwise less-or-equal on possibly-missing cells. -/
def oLE : Option ℚ → Option ℚ → Bool
  | some a, some b => decide (a ≤ b)
  | _, _ => false

/-- The pandas `Series.shift(1)`: every value moves down one position and the
first cell becomes missing. -/
def shift1 (l : List (Option ℚ)) : List (Option ℚ) :=
  none :: l.dropLast

/-- Pointwise boolean conjunction of two boolean columns (pandas `&`). -/
def andL (a b : List Bool) : List Bool :=
  List.zipWith (fun x y => x && y) a b

/-- Pointwise boolean disjunction of two boolean columns (pandas `|`). -/
def orL (a b : List Bool) : List Bool :=
  List.zipWith (fun x y => x || y) a b

theorem zipWith_get? {α β γ : Type} (f : α → β → γ) :
    ∀ (a : List α) (b : List β) (i : ℕ),
      (List.zipWith f a b).get? i =
        match a.get? i, b.get? i with
        | some x, some y => some (f x y)
        | _, _ => none
  | [], _, _ => by simp [List.zipWith]
  | _ :: _, [], _ => by simp [List.zipWith]
  | x :: xs, y :: ys, 0 => by simp [List.zipWith]
  | x :: xs, y :: ys, i + 1 => by
      simpa [List.zipWith] using zipWith_get? f xs ys i

theorem map_get? {α β : Type} (f : α → β) :
    ∀ (a : List α) (i : ℕ), (a.map f).get? i = (a.get? i).map f
  | [], _ => rfl
  | _ :: _, 0 => rfl
  | _ :: xs, i + 1 => map_get? f xs i

end Indicators

namespace TechnicalIndicators

open Indicators

/-- One step of the ratchet trailing-stop loop of
`TechnicalIndicators.atr_trailing_stop`: given the previous bar's stop value
(`none` when there is no valid previous stop), the bar's close and ATR, the
bar's stop.  A missing candidate (missing close or ATR) leaves the stop
missing; with no valid previous stop the stop is the candidate
`close - atr * multiplier`; a close below the previous stop resets the stop
to the candidate; otherwise the stop ratchets to `max` of previous stop and
candidate. -/
def tstopStep (multiplier : ℚ) (prev : Option ℚ) (close atr : Option ℚ) : Option ℚ :=
  match close, atr with
  | some c, some a =>
    let candidate := c - a * multiplier
    match prev with
    | none => some candidate
    | some p => if c < p then some candidate else some (max p candidate)
  | _, _ => none

/-- The sequential ratchet loop over (close, atr) rows, threading the previous
cell's stop value exactly as the index loop in the source does. -/
def tstops (multiplier : ℚ) : Option ℚ → List (Option ℚ × Option ℚ) → List (Option ℚ)
  | _, [] => []
  | prev, (c, a) :: rest =>
    let cur := tstopStep multiplier prev c a
    cur :: tstops multiplier cur rest

/-- `TechnicalIndicators.atr_trailing_stop`: the ratchet ATR trailing stop over
a close series and an ATR series. -/
def atr_trailing_stop (close atr : List (Option ℚ)) (multiplier : ℚ) : List (Option ℚ) :=
  tstops multiplier none (close.zip atr)

/-- The stop value of the previous cell, as the loop reads it:  at index 0
there is none; at index `i+1` it is cell `i` of the output (missing cells
read as no valid previous stop). -/
def prevStop (stops : List (Option ℚ)) : ℕ → Option ℚ
  | 0 => none
  | i + 1 => (stops.get? i).join

/-- Helper state reading for `tstops` started from an arbitrary previous
value. -/
def prevStopAux (pv : Option ℚ) (stops : List (Option ℚ)) : ℕ → Option ℚ
  | 0 => pv
  | i + 1 => (stops.get? i).join

theorem tstops_length (multiplier : ℚ) :
    ∀ (pv : Option ℚ) (rows : List (Option ℚ × Option ℚ)),
      (tstops multiplier pv rows).length = rows.length
  | _, [] => rfl
  | pv, (c, a) :: rest => by
      simp [tstops, tstops_length multiplier (tstopStep multiplier pv c a) rest]

theorem tstops_get? (multiplier : ℚ) :
    ∀ (rows : List (Option ℚ × Option ℚ)) (pv : Option ℚ) (i : ℕ)
      (c a : Option ℚ), rows.get? i = some (c, a) →
      (tstops multiplier pv rows).get? i =
        some (tstopStep multiplier
          (prevStopAux pv (tstops multiplier pv rows) i) c a)
  | [], _, i, _, _, h => by simp at h
  | (c0, a0) :: rest, pv, 0, c, a, h => by
      simp at h
      simp [tstops, prevStopAux, h.1, h.2]
  | (c0, a0) :: rest, pv, i + 1, c, a, h => by
      have hr : rest.get? i = some (c, a) := by simpa using h
      have ih := tstops_get? multiplier rest (tstopStep multiplier pv c0 a0) i c a hr
      cases i with
      | zero =>
          simpa [tstops, prevStopAux] using ih
      | succ j =>
          simpa [tstops, prevStopAux] using ih

theorem atr_trailing_stop_get? (multiplier : ℚ) (close atr : List (Option ℚ))
    (i : ℕ) (c a : Option ℚ) (h : (close.zip atr).get? i = some (c, a)) :
    (atr_trailing_stop close atr multiplier).get? i =
      some (tstopStep multiplier
        (prevStop (atr_trailing_stop close atr multiplier) i) c a) := by
  have := tstops_get? multiplier (close.zip atr) none i c a h
  cases i with
  | zero => simpa [atr_trailing_stop, prevStop, prevStopAux] using this
  | succ j => simpa [atr_trailing_stop, prevStop, prevStopAux] using this

theorem zip_get? {α β : Type} :
    ∀ (a : List α) (b : List β) (i : ℕ) (x : α) (y : β),
      a.get? i = some x → b.get? i = some y → (a.zip b).get? i = some (x, y)
  | [], _, i, _, _, hx, _ => by simp at hx
  | _ :: _, [], i, _, _, _, hy => by simp at hy
  | _ :: _, _ :: _, 0, _, _, hx, hy => by
      simp at hx hy
      simp [List.zip, hx, hy]
  | _ :: as, _ :: bs, i + 1, x, y, hx, hy => by
      simpa using zip_get? as bs i x y (by simpa using hx) (by simpa using hy)

end TechnicalIndicators

namespace TechnicalIndicators

/-- C1: the ratchet trailing stop follows the stated recurrence in strict
index order — the stop is missing whenever the ATR cell is missing; with a
defined candidate and no valid previous stop the stop is the candidate
`close - atr * multiplier`; when the anchor drops below the previous stop the
stop resets to the candidate; otherwise it is the max of the previous stop and
the candidate — and on anchor `[100, 105, 95, 110]` with constant ATR 2 and
multiplier 2 the stops are `[96, 101, 91, 106]`. -/
theorem atr_trailing_stop_recurrence_and_scenario :
    (∀ (close atr : List (Option ℚ)) (m : ℚ) (i : ℕ) (c : Option ℚ),
        close.get? i = some c → atr.get? i = some none →
        (atr_trailing_stop close atr m).get? i = some none) ∧
    (∀ (close atr : List (Option ℚ)) (m : ℚ) (i : ℕ) (c a : ℚ),
        close.get? i = some (some c) → atr.get? i = some (some a) →
        prevStop (atr_trailing_stop close atr m) i = none →
        (atr_trailing_stop close atr m).get? i = some (some (c - a * m))) ∧
    (∀ (close atr : List (Option ℚ)) (m : ℚ) (i : ℕ) (c a p : ℚ),
        close.get? i = some (some c) → atr.get? i = some (some a) →
        prevStop (atr_trailing_stop close atr m) i = some p → c < p →
        (atr_trailing_stop close atr m).get? i = some (some (c - a * m))) ∧
    (∀ (close atr : List (Option ℚ)) (m : ℚ) (i : ℕ) (c a p : ℚ),
        close.get? i = some (some c) → atr.get? i = some (some a) →
        prevStop (atr_trailing_stop close atr m) i = some p → p ≤ c →
        (atr_trailing_stop close atr m).get? i =
          some (some (max p (c - a * m)))) ∧
    (atr_trailing_stop [some 100, some 105, some 95, some 110]
        [some 2, some 2, some 2, some 2] 2 =
      [some 96, some 101, some 91, some 106]) := by
  refine ⟨?_, ?_, ?_, ?_, by
    norm_num [atr_trailing_stop, tstops, tstopStep, List.zip, List.zipWith]⟩
  · intro close atr m i c hc ha
    have hz := zip_get? close atr i c none hc ha
    have := atr_trailing_stop_get? m close atr i c none hz
    cases c with
    | none => simpa [tstopStep] using this
    | some cv => simpa [tstopStep] using this
  · intro close atr m i c a hc ha hp
    have hz := zip_get? close atr i (some c) (some a) hc ha
    have := atr_trailing_stop_get? m close atr i (some c) (some a) hz
    rw [hp] at this
    simpa [tstopStep] using this
  · intro close atr m i c a p hc ha hp hlt
    have hz := zip_get? close atr i (some c) (some a) hc ha
    have := atr_trailing_stop_get? m close atr i (some c) (some a) hz
    rw [hp] at this
    simpa [tstopStep, hlt] using this
  · intro close atr m i c a p hc ha hp hle
    have hz := zip_get? close atr i (some c) (some a) hc ha
    have := atr_trailing_stop_get? m close atr i (some c) (some a) hz
    rw [hp] at this
    simpa [tstopStep, not_lt.mpr hle] using this

theorem atr_trailing_stop_recurrence_witness :
    prevStop (atr_trailing_stop [some 100, some 105, some 95, some 110]
        [some 2, some 2, some 2, some 2] 2) 2 = some 101 ∧
    (95 : ℚ) < 101 ∧
    (atr_trailing_stop [some 100, some 105, some 95, some 110]
        [some 2, some 2, some 2, some 2] 2).get? 2 = some (some 91) := by
  refine ⟨?_, by norm_num, ?_⟩
  · norm_num [atr_trailing_stop, tstops, tstopStep, prevStop, List.zip,
      List.zipWith]
  · have h := atr_trailing_stop_recurrence_and_scenario.2.2.1
      [some 100, some 105, some 95, some 110]
      [some 2, some 2, some 2, some 2] 2 2 95 2 101
      (by norm_num) (by norm_num)
      (by norm_num [atr_trailing_stop, tstops, tstopStep, prevStop, List.zip,
        List.zipWith])
      (by norm_num)
    have h91 : (95 : ℚ) - 2 * 2 = 91 := by norm_num
    rw [h91] at h
    exact h

/-- C5: within a run where the anchor stays at or above the previous stop the
trailing stop never decreases from one bar to the next; the stop takes the
candidate value (a possible decrease, the reset) exactly when the anchor drops
below the previous stop, so a strict decrease implies the reset condition. -/
theorem atr_trailing_stop_run_monotone_reset :
    (∀ (close atr : List (Option ℚ)) (m : ℚ) (i : ℕ) (c a p : ℚ),
        close.get? i = some (some c) → atr.get? i = some (some a) →
        prevStop (atr_trailing_stop close atr m) i = some p → p ≤ c →
        ∃ q : ℚ, (atr_trailing_stop close atr m).get? i = some (some q) ∧
          p ≤ q) ∧
    (∀ (close atr : List (Option ℚ)) (m : ℚ) (i : ℕ) (c a p : ℚ),
        close.get? i = some (some c) → atr.get? i = some (some a) →
        prevStop (atr_trailing_stop close atr m) i = some p → c < p →
        (atr_trailing_stop close atr m).get? i = some (some (c - a * m))) ∧
    (∀ (close atr : List (Option ℚ)) (m : ℚ) (i : ℕ) (c a p q : ℚ),
        close.get? i = some (some c) → atr.get? i = some (some a) →
        prevStop (atr_trailing_stop close atr m) i = some p →
        (atr_trailing_stop close atr m).get? i = some (some q) → q < p →
        c < p) := by
  refine ⟨?_, ?_, ?_⟩
  · intro close atr m i c a p hc ha hp hle
    have hz := zip_get? close atr i (some c) (some a) hc ha
    have hstep := atr_trailing_stop_get? m close atr i (some c) (some a) hz
    rw [hp] at hstep
    refine ⟨max p (c - a * m), ?_, le_max_left _ _⟩
    simpa [tstopStep, not_lt.mpr hle] using hstep
  · intro close atr m i c a p hc ha hp hlt
    have hz := zip_get? close atr i (some c) (some a) hc ha
    have hstep := atr_trailing_stop_get? m close atr i (some c) (some a) hz
    rw [hp] at hstep
    simpa [tstopStep, hlt] using hstep
  · intro close atr m i c a p q hc ha hp hq hqp
    by_contra hnc
    have hle : p ≤ c := not_lt.mp hnc
    have hz := zip_get? close atr i (some c) (some a) hc ha
    have hstep := atr_trailing_stop_get? m close atr i (some c) (some a) hz
    rw [hp, hq] at hstep
    have hmax : q = max p (c - a * m) := by
      have := hstep
      simp [tstopStep, not_lt.mpr hle] at this
      exact this
    have hpq : p ≤ q := hmax ▸ le_max_left _ _
    exact absurd hqp (not_lt.mpr hpq)

theorem atr_trailing_stop_run_monotone_reset_witness :
    prevStop (atr_trailing_stop [some 100, some 105, some 95, some 110]
        [some 2, some 2, some 2, some 2] 2) 1 = some 96 ∧
    (96 : ℚ) ≤ 105 ∧
    (∃ q : ℚ, (atr_trailing_stop [some 100, some 105, some 95, some 110]
        [some 2, some 2, some 2, some 2] 2).get? 1 = some (some q) ∧
        (96 : ℚ) ≤ q) := by
  refine ⟨?_, by norm_num, ?_⟩
  · norm_num [atr_trailing_stop, tstops, tstopStep, prevStop, List.zip,
      List.zipWith]
  · exact atr_trailing_stop_run_monotone_reset.1
      [some 100, some 105, some 95, some 110]
      [some 2, some 2, some 2, some 2] 2 1 105 2 96
      (by norm_num) (by norm_num)
      (by norm_num [atr_trailing_stop, tstops, tstopStep, prevStop, List.zip,
        List.zipWith])
      (by norm_num)

end TechnicalIndicators

namespace TechnicalIndicators

open Indicators

/-- The per-bar true range of `TechnicalIndicators.atr`: the row-wise max of
`high - low`, `|high - prev_close|` and `|low - prev_close|`, where
`prev_close` is the close series shifted by one; on the first bar the two
prev-close terms are missing and the skipna max degrades to `high - low`. -/
def trueRange (high low close : List ℚ) : List ℚ :=
  List.zipWith3
    (fun h l pc =>
      match pc with
      | none => h - l
      | some c => max (h - l) (max |h - c| |l - c|))
    high low (shift1 (close.map some))

/-- pandas `Series.rolling(window).mean()` with the default
`min_periods = window`: missing until a full trailing window exists, then the
arithmetic mean of the trailing `window` values. -/
def rollingMean (window : ℕ) (l : List ℚ) : List (Option ℚ) :=
  (List.range l.length).map fun i =>
    if window ≤ i + 1
      then some (((l.take (i + 1)).drop (i + 1 - window)).sum / window)
      else none

/-- `TechnicalIndicators.atr`: trailing rolling mean of the true range. -/
def atr (high low close : List ℚ) (period : ℕ) : List (Option ℚ) :=
  rollingMean period (trueRange high low close)

theorem zipWith3_get? {α β γ δ : Type} (f : α → β → γ → δ) :
    ∀ (a : List α) (b : List β) (c : List γ) (i : ℕ),
      (List.zipWith3 f a b c).get? i =
        match a.get? i, b.get? i, c.get? i with
        | some x, some y, some z => some (f x y z)
        | _, _, _ => none
  | [], _, _, _ => by simp [List.zipWith3]
  | _ :: _, [], _, _ => by simp [List.zipWith3]
  | _ :: _, _ :: _, [], _ => by simp [List.zipWith3]
  | x :: xs, y :: ys, z :: zs, 0 => by simp [List.zipWith3]
  | x :: xs, y :: ys, z :: zs, i + 1 => by
      simpa [List.zipWith3] using zipWith3_get? f xs ys zs i

theorem dropLast_get? {α : Type} :
    ∀ (l : List α) (i : ℕ), i + 1 < l.length → l.dropLast.get? i = l.get? i
  | [], i, h => by simp at h
  | [_], i, h => by simp at h
  | _ :: _ :: _, 0, _ => rfl
  | x :: y :: l, i + 1, h => by
      have := dropLast_get? (y :: l) i (by simpa using h)
      simpa [List.dropLast] using this

theorem shift1_get?_succ (l : List (Option ℚ)) (i : ℕ) (h : i + 1 < l.length) :
    (shift1 l).get? (i + 1) = l.get? i := by
  have h0 : (shift1 l).get? (i + 1) = l.dropLast.get? i := rfl
  rw [h0, dropLast_get? l i h]

end TechnicalIndicators

namespace TechnicalIndicators

open Indicators

theorem rollingMean_get? (window : ℕ) (l : List ℚ) (i : ℕ) (h : i < l.length) :
    (rollingMean window l).get? i =
      some (if window ≤ i + 1
        then some (((l.take (i + 1)).drop (i + 1 - window)).sum / window)
        else none) := by
  unfold rollingMean
  rw [map_get?, List.get?_range h]
  rfl

theorem trueRange_cons (h l c : ℚ) (hs ls cs : List ℚ) :
    trueRange (h :: hs) (l :: ls) (c :: cs) =
      (h - l) :: List.zipWith3
        (fun x y pc =>
          match pc with
          | none => x - y
          | some z => max (x - y) (max |x - z| |y - z|))
        hs ls ((c :: cs).map some).dropLast := by
  simp [trueRange, shift1, List.zipWith3]

/-- C6 counterexample: with period 2 the ATR output at index 0 is missing
(the rolling mean has no full window yet), not `high[0] - low[0]`; here
`high = [10, 11]`, `low = [5, 6]`, `close = [7, 8]`, so the claimed value
would have been `some 5`. -/
theorem atr_index0_counterexample :
    (atr [10, 11] [5, 6] [7, 8] 2).get? 0 = some none ∧
    (atr [10, 11] [5, 6] [7, 8] 2).get? 0 ≠ some (some 5) := by
  have hlen : (0 : ℕ) < (trueRange [10, 11] [5, 6] [7, 8]).length := by
    rw [trueRange_cons]
    simp
  have := rollingMean_get? 2 (trueRange [10, 11] [5, 6] [7, 8]) 0 hlen
  constructor
  · rw [atr, this]
    simp
  · rw [atr, this]
    simp

/-- C6 (amended): the true range at index 0 equals `high[0] - low[0]`; for
`i > 0` the true range is `max(high-low, |high-prev_close|, |low-prev_close|)`
with `prev_close = close[i-1]`; the ATR output is the trailing rolling mean of
the true range over the period — missing until a full window of `period` true
ranges exists — so the ATR value at index 0 equals `high[0] - low[0]` when the
period is 1 (and is missing for larger periods). -/
theorem atr_true_range_and_rolling_mean :
    (∀ (h l c : ℚ) (hs ls cs : List ℚ),
        (trueRange (h :: hs) (l :: ls) (c :: cs)).get? 0 = some (h - l)) ∧
    (∀ (high low close : List ℚ) (i : ℕ) (h l pc : ℚ),
        high.length = close.length →
        high.get? (i + 1) = some h → low.get? (i + 1) = some l →
        close.get? i = some pc →
        (trueRange high low close).get? (i + 1) =
          some (max (h - l) (max |h - pc| |l - pc|))) ∧
    (∀ (high low close : List ℚ) (period i : ℕ),
        i < (trueRange high low close).length →
        (atr high low close period).get? i =
          some (if period ≤ i + 1
            then some ((((trueRange high low close).take (i + 1)).drop
                (i + 1 - period)).sum / period)
            else none)) ∧
    (∀ (h l c : ℚ) (hs ls cs : List ℚ),
        (atr (h :: hs) (l :: ls) (c :: cs) 1).get? 0 = some (some (h - l))) := by
  refine ⟨?_, ?_, ?_, ?_⟩
  · intro h l c hs ls cs
    rw [trueRange_cons]
    rfl
  · intro high low close i h l pc hlen hh hl hc
    have hi1 : i + 1 < close.length := by
      have hb : i + 1 < high.length := (List.get?_eq_some.mp hh).1
      rw [← hlen]
      exact hb
    have hpc : (shift1 (close.map some)).get? (i + 1) = some (some pc) := by
      rw [shift1_get?_succ _ _ (by simpa using hi1), map_get?, hc]
      rfl
    rw [trueRange, zipWith3_get? _ high low _ (i + 1), hh, hl, hpc]
  · intro high low close period i h
    exact rollingMean_get? period (trueRange high low close) i h
  · intro h l c hs ls cs
    have hlen : (0 : ℕ) < (trueRange (h :: hs) (l :: ls) (c :: cs)).length := by
      rw [trueRange_cons]; simp
    rw [atr, rollingMean_get? 1 _ 0 hlen]
    rw [trueRange_cons]
    norm_num

theorem atr_true_range_and_rolling_mean_witness :
    (trueRange [10, 11] [5, 6] [7, 8]).get? 0 = some 5 ∧
    (atr [(3 : ℚ)] [1] [2] 1).get? 0 = some (some 2) := by
  constructor
  · have := atr_true_range_and_rolling_mean.1 10 5 7 [11] [6] [8]
    rw [this]
    norm_num
  · have := atr_true_range_and_rolling_mean.2.2.2 3 1 2 [] [] []
    rw [this]
    norm_num

end TechnicalIndicators

namespace RSMACDIndicators

/-- The gain column of `RSMACDIndicators.compute_indicators`: the MACD-line
day-over-day deltas clipped from below at 0. -/
def gains (deltas : List ℚ) : List ℚ :=
  deltas.map (fun d => max d 0)

/-- The loss column: the negated deltas clipped from below at 0. -/
def losses (deltas : List ℚ) : List ℚ :=
  deltas.map (fun d => max (-d) 0)

/-- Wilder smoothing continued from a previous value: the pandas
`ewm(alpha, adjust=False).mean()` recurrence
`y[i] = (1 - alpha) * y[i-1] + alpha * x[i]`. -/
def wilderFrom (al y : ℚ) : List ℚ → List ℚ
  | [] => []
  | x :: xs =>
    let y2 := (1 - al) * y + al * x
    y2 :: wilderFrom al y2 xs

/-- Wilder smoothing of a list of observations: first value seeds the
recurrence. -/
def wilder (al : ℚ) : List ℚ → List ℚ
  | [] => []
  | x :: xs => x :: wilderFrom al x xs

/-- The per-cell boundary pipeline of `compute_indicators` at a valid index,
given the smoothed average gain `g` and average loss `l`:
`rs = g / l` with a zero loss replaced by a missing value, then
`100 - 100 / (1 + rs)`, then cells with zero loss forced to 100, then cells
with zero gain forced to 0. -/
def rsmacdVal (g l : ℚ) : Option ℚ :=
  let rs : Option ℚ := if l = 0 then none else some (g / l)
  let r0 : Option ℚ := Option.map (fun r => 100 - 100 / (1 + r)) rs
  let r1 : Option ℚ := if l = 0 then some 100 else r0
  if g = 0 then some 0 else r1

/-- The rsmacd value at the first valid index after an `rsi_period`-long
warm-up window of deltas: Wilder smoothing of the clipped gains and losses
with weight `1 / rsi_period`, read at the end of the window, fed through the
boundary pipeline. -/
def rsmacdFirstValid (p : ℕ) (deltas : List ℚ) : Option ℚ :=
  match (wilder (1 / (p : ℚ)) (gains deltas)).get? (p - 1),
        (wilder (1 / (p : ℚ)) (losses deltas)).get? (p - 1) with
  | some g, some l => rsmacdVal g l
  | _, _ => none

theorem wilderFrom_pos (al : ℚ) (h0 : 0 < al) (h1 : al ≤ 1) :
    ∀ (xs : List ℚ) (y : ℚ), 0 < y → (∀ x ∈ xs, 0 < x) →
      ∀ z ∈ wilderFrom al y xs, 0 < z
  | [], _, _, _ => by simp [wilderFrom]
  | x :: xs, y, hy, hx => by
      have hxpos : 0 < x := hx x (List.mem_cons_self x xs)
      have hy2 : 0 < (1 - al) * y + al * x := by
        have hnn : 0 ≤ (1 - al) * y := by
          apply mul_nonneg
          · linarith
          · exact le_of_lt hy
        have hpos : 0 < al * x := mul_pos h0 hxpos
        linarith
      intro z hz
      simp only [wilderFrom, List.mem_cons] at hz
      rcases hz with hz | hz
      · rw [hz]; exact hy2
      · exact wilderFrom_pos al h0 h1 xs ((1 - al) * y + al * x) hy2
          (fun w hw => hx w (List.mem_cons_of_mem x hw)) z hz

theorem wilder_pos (al : ℚ) (h0 : 0 < al) (h1 : al ≤ 1) :
    ∀ (xs : List ℚ), (∀ x ∈ xs, 0 < x) → ∀ z ∈ wilder al xs, 0 < z
  | [], _ => by simp [wilder]
  | x :: xs, hx => by
      intro z hz
      have hxpos : 0 < x := hx x (List.mem_cons_self x xs)
      simp only [wilder, List.mem_cons] at hz
      rcases hz with hz | hz
      · rw [hz]; exact hxpos
      · exact wilderFrom_pos al h0 h1 xs x hxpos
          (fun w hw => hx w (List.mem_cons_of_mem x hw)) z hz

theorem wilderFrom_zeros (al : ℚ) :
    ∀ (xs : List ℚ) (y : ℚ), y = 0 → (∀ x ∈ xs, x = 0) →
      ∀ z ∈ wilderFrom al y xs, z = 0
  | [], _, _, _ => by simp [wilderFrom]
  | x :: xs, y, hy, hx => by
      have hx0 : x = 0 := hx x (List.mem_cons_self x xs)
      have hy2 : (1 - al) * y + al * x = 0 := by
        rw [hy, hx0]; ring
      intro z hz
      simp only [wilderFrom, List.mem_cons] at hz
      rcases hz with hz | hz
      · rw [hz]; exact hy2
      · exact wilderFrom_zeros al xs ((1 - al) * y + al * x) hy2
          (fun w hw => hx w (List.mem_cons_of_mem x hw)) z hz

theorem wilder_zeros (al : ℚ) :
    ∀ (xs : List ℚ), (∀ x ∈ xs, x = 0) → ∀ z ∈ wilder al xs, z = 0
  | [], _ => by simp [wilder]
  | x :: xs, hx => by
      intro z hz
      have hx0 : x = 0 := hx x (List.mem_cons_self x xs)
      simp only [wilder, List.mem_cons] at hz
      rcases hz with hz | hz
      · rw [hz]; exact hx0
      · exact wilderFrom_zeros al xs x hx0
          (fun w hw => hx w (List.mem_cons_of_mem x hw)) z hz

theorem wilderFrom_length (al : ℚ) :
    ∀ (xs : List ℚ) (y : ℚ), (wilderFrom al y xs).length = xs.length
  | [], _ => rfl
  | x :: xs, y => by
      simp [wilderFrom, wilderFrom_length al xs]

theorem wilder_length (al : ℚ) :
    ∀ (xs : List ℚ), (wilder al xs).length = xs.length
  | [] => rfl
  | x :: xs => by
      simp [wilder, wilderFrom_length al xs]

end RSMACDIndicators

namespace RSMACDIndicators

/-- C2: at every valid cell of the Wilder-smoothed averages, a zero average
loss with a nonzero average gain yields rsmacd exactly 100, and a zero average
gain yields exactly 0 (regardless of the loss); consequently an all-gain
warm-up window of `rsi_period` deltas yields exactly 100 at the first valid
index and an all-loss window yields exactly 0. -/
theorem rsmacd_boundary_cases :
    (∀ g l : ℚ, l = 0 → g ≠ 0 → rsmacdVal g l = some 100) ∧
    (∀ g l : ℚ, g = 0 → rsmacdVal g l = some 0) ∧
    (∀ (p : ℕ) (deltas : List ℚ), 1 ≤ p → deltas.length = p →
        (∀ d ∈ deltas, 0 < d) → rsmacdFirstValid p deltas = some 100) ∧
    (∀ (p : ℕ) (deltas : List ℚ), 1 ≤ p → deltas.length = p →
        (∀ d ∈ deltas, d < 0) → rsmacdFirstValid p deltas = some 0) := by
  have hval100 : ∀ g l : ℚ, l = 0 → g ≠ 0 → rsmacdVal g l = some 100 := by
    intro g l hl hg
    simp [rsmacdVal, hl, hg]
  have hval0 : ∀ g l : ℚ, g = 0 → rsmacdVal g l = some 0 := by
    intro g l hg
    simp [rsmacdVal, hg]
  refine ⟨hval100, hval0, ?_, ?_⟩
  · intro p deltas hp hlen hpos
    have hpq : (0 : ℚ) < (p : ℚ) := by
      exact_mod_cast Nat.lt_of_lt_of_le Nat.zero_lt_one hp
    have hal0 : 0 < 1 / (p : ℚ) := by positivity
    have hal1 : 1 / (p : ℚ) ≤ 1 := by
      rw [div_le_one hpq]
      exact_mod_cast hp
    have hglen : (wilder (1 / (p : ℚ)) (gains deltas)).length = p := by
      rw [wilder_length, gains, List.length_map, hlen]
    have hllen : (wilder (1 / (p : ℚ)) (losses deltas)).length = p := by
      rw [wilder_length, losses, List.length_map, hlen]
    have hidxg : p - 1 < (wilder (1 / (p : ℚ)) (gains deltas)).length := by
      rw [hglen]; omega
    have hidxl : p - 1 < (wilder (1 / (p : ℚ)) (losses deltas)).length := by
      rw [hllen]; omega
    obtain ⟨g, hg⟩ : ∃ g,
        (wilder (1 / (p : ℚ)) (gains deltas)).get? (p - 1) = some g :=
      ⟨_, List.get?_eq_get hidxg⟩
    obtain ⟨lv, hlv⟩ : ∃ lv,
        (wilder (1 / (p : ℚ)) (losses deltas)).get? (p - 1) = some lv :=
      ⟨_, List.get?_eq_get hidxl⟩
    have hgpos : 0 < g := by
      refine wilder_pos _ hal0 hal1 (gains deltas) ?_ g (List.get?_mem hg)
      intro x hx
      obtain ⟨d, hd, rfl⟩ := List.mem_map.mp hx
      exact lt_max_iff.mpr (Or.inl (hpos d hd))
    have hlzero : lv = 0 := by
      refine wilder_zeros _ (losses deltas) ?_ lv (List.get?_mem hlv)
      intro x hx
      obtain ⟨d, hd, rfl⟩ := List.mem_map.mp hx
      have : -d ≤ 0 := by
        have := hpos d hd
        linarith
      exact max_eq_right this
    simp only [rsmacdFirstValid, hg, hlv]
    rw [hlzero]
    exact hval100 g 0 rfl (ne_of_gt hgpos)
  · intro p deltas hp hlen hneg
    have hglen : (wilder (1 / (p : ℚ)) (gains deltas)).length = p := by
      rw [wilder_length, gains, List.length_map, hlen]
    have hllen : (wilder (1 / (p : ℚ)) (losses deltas)).length = p := by
      rw [wilder_length, losses, List.length_map, hlen]
    have hidxg : p - 1 < (wilder (1 / (p : ℚ)) (gains deltas)).length := by
      rw [hglen]; omega
    have hidxl : p - 1 < (wilder (1 / (p : ℚ)) (losses deltas)).length := by
      rw [hllen]; omega
    obtain ⟨g, hg⟩ : ∃ g,
        (wilder (1 / (p : ℚ)) (gains deltas)).get? (p - 1) = some g :=
      ⟨_, List.get?_eq_get hidxg⟩
    obtain ⟨lv, hlv⟩ : ∃ lv,
        (wilder (1 / (p : ℚ)) (losses deltas)).get? (p - 1) = some lv :=
      ⟨_, List.get?_eq_get hidxl⟩
    have hgzero : g = 0 := by
      refine wilder_zeros _ (gains deltas) ?_ g (List.get?_mem hg)
      intro x hx
      obtain ⟨d, hd, rfl⟩ := List.mem_map.mp hx
      have : d ≤ 0 := le_of_lt (hneg d hd)
      exact max_eq_right this
    simp only [rsmacdFirstValid, hg, hlv]
    exact hval0 g lv hgzero

theorem rsmacd_boundary_cases_witness :
    rsmacdFirstValid 2 [1, 1] = some 100 ∧
    rsmacdFirstValid 2 [-1, -1] = some 0 :=
  ⟨rsmacd_boundary_cases.2.2.1 2 [1, 1] (by norm_num) (by norm_num)
      (by intro d hd; simp at hd; rw [hd]; norm_num),
    rsmacd_boundary_cases.2.2.2 2 [-1, -1] (by norm_num) (by norm_num)
      (by intro d hd; simp at hd; rw [hd]; norm_num)⟩

end RSMACDIndicators

namespace Dedup

/-!
Shared signal deduplication of `RSMACDIndicators.deduplicate_signals` and
`CIS2560Indicators.deduplicate_signals`.  A frame is a list of per-row
`signal_type` labels (`none` when no flag is true, so the row is filtered
out); `α` is the label type, the joined flag-label string in the source.
The walk keeps a signal row unless it is positionally adjacent (original
row-index difference exactly 1) to the previous signal row and carries an
identical label; the previous row/label trackers update on every signal row,
kept or not.
-/

variable {α : Type} [DecidableEq α]

/-- Filter to rows with a non-missing label, keeping original row positions,
starting the position counter at `j`. -/
def filt : ℕ → List (Option α) → List (ℕ × α)
  | _, [] => []
  | j, none :: rest => filt (j + 1) rest
  | j, some s :: rest => (j, s) :: filt (j + 1) rest

/-- The deduplication walk over the filtered signal rows. -/
def dedupWalk : Option (ℕ × α) → List (ℕ × α) → List (ℕ × α)
  | _, [] => []
  | prev, (i, s) :: rest =>
    let keep : Bool :=
      match prev with
      | none => true
      | some (pj, ps) => !(decide (i - pj = 1) && decide (s = ps))
    (if keep then [(i, s)] else []) ++ dedupWalk (some (i, s)) rest

/-- `deduplicate_signals`: filter to labelled rows, then keep the first of
every run of consecutive identical labels. -/
def deduplicate_signals (labels : List (Option α)) : List (ℕ × α) :=
  dedupWalk none (filt 0 labels)

/-- The label of the row positionally adjacent (just below position `j`) to
the tracked previous signal row, if the previous signal row sits there. -/
def adjLabel : Option (ℕ × α) → ℕ → Option α
  | none, _ => none
  | some (pj, ps), j => if pj + 1 = j then some ps else none

/-- Recursion over label rows equivalent to the walk: the state is the label
of the immediately preceding row position (missing when that row had no
label). -/
def dedupDirect : Option α → ℕ → List (Option α) → List (ℕ × α)
  | _, _, [] => []
  | _, j, none :: rest => dedupDirect none (j + 1) rest
  | prev, j, some s :: rest =>
    (if prev = some s then [] else [(j, s)]) ++ dedupDirect (some s) (j + 1) rest

theorem dedupWalk_filt :
    ∀ (labels : List (Option α)) (j : ℕ) (prev : Option (ℕ × α)),
      (∀ pj ps, prev = some (pj, ps) → pj < j) →
      dedupWalk prev (filt j labels) = dedupDirect (adjLabel prev j) j labels
  | [], j, prev, _ => by
      cases prev with
      | none => rfl
      | some pr => rfl
  | none :: rest, j, prev, hlt => by
      have hadj : adjLabel prev (j + 1) = none := by
        cases prev with
        | none => rfl
        | some pr =>
            obtain ⟨pj, ps⟩ := pr
            have : pj < j := hlt pj ps rfl
            simp [adjLabel]
            omega
      have ih := dedupWalk_filt rest (j + 1) prev
        (fun pj ps hp => Nat.lt_succ_of_lt (hlt pj ps hp))
      calc dedupWalk prev (filt j (none :: rest))
      _ = dedupWalk prev (filt (j + 1) rest) := by rw [filt]
      _ = dedupDirect (adjLabel prev (j + 1)) (j + 1) rest := ih
      _ = dedupDirect none (j + 1) rest := by rw [hadj]
      _ = dedupDirect (adjLabel prev j) j (none :: rest) := by rw [dedupDirect]
  | some s :: rest, j, prev, hlt => by
      have ih := dedupWalk_filt rest (j + 1) (some (j, s))
        (by intro pj ps hp; cases hp; omega)
      have hadj2 : adjLabel (some (j, s)) (j + 1) = some s := by
        simp [adjLabel]
      rw [hadj2] at ih
      have hfilt : filt j (some s :: rest) = (j, s) :: filt (j + 1) rest := rfl
      rw [hfilt]
      cases prev with
      | none =>
          rw [dedupWalk]
          simp only [ih]
          rw [dedupDirect]
          simp [adjLabel]
      | some pr =>
          obtain ⟨pj, ps⟩ := pr
          have hpj : pj < j := hlt pj ps rfl
          rw [dedupWalk]
          simp only [ih]
          rw [dedupDirect]
          by_cases hd : pj + 1 = j ∧ ps = s
          · have h1 : j - pj = 1 := by omega
            have hadj3 : adjLabel (some (pj, ps)) j = some s := by
              simp [adjLabel, hd.1, hd.2]
            rw [hadj3]
            simp [h1, hd.2]
          · have hne : ¬(j - pj = 1 ∧ s = ps) := by
              intro hc
              exact hd ⟨by omega, hc.2.symm⟩
            have hadj3 : adjLabel (some (pj, ps)) j ≠ some s := by
              simp only [adjLabel]
              by_cases hj : pj + 1 = j
              · simp only [hj, if_pos rfl]
                intro hc
                exact hd ⟨hj, by simpa using hc⟩
              · simp [hj]
            rw [if_neg hadj3]
            have hkeep : (!(decide (j - pj = 1) && decide (s = ps))) = true := by
              by_cases ha : j - pj = 1
              · have hb : ¬ s = ps := fun hb => hne ⟨ha, hb⟩
                simp [ha, hb]
              · simp [ha]
            simp [hkeep]

end Dedup

namespace Dedup

variable {α : Type} [DecidableEq α]

/-- The label at the row position just before position `k`, as seen from a
recursion whose state for `k = 0` is `prev`. -/
def prevAt (prev : Option α) (labels : List (Option α)) : ℕ → Option α
  | 0 => prev
  | k + 1 => (labels.get? k).join

theorem prevAt_cons (prev c : Option α) (rest : List (Option α)) :
    ∀ k : ℕ, prevAt prev (c :: rest) (k + 1) = prevAt c rest k
  | 0 => by simp [prevAt]
  | k + 1 => by simp [prevAt]

theorem mem_dedupDirect :
    ∀ (labels : List (Option α)) (prev : Option α) (j i : ℕ) (s : α),
      ((i, s) ∈ dedupDirect prev j labels ↔
        ∃ k, i = j + k ∧ labels.get? k = some (some s) ∧
          prevAt prev labels k ≠ some s)
  | [], prev, j, i, s => by
      simp [dedupDirect]
  | none :: rest, prev, j, i, s => by
      rw [dedupDirect]
      rw [mem_dedupDirect rest none (j + 1) i s]
      constructor
      · rintro ⟨k, hk, hget, hprev⟩
        refine ⟨k + 1, by omega, by simpa using hget, ?_⟩
        rw [prevAt_cons]
        exact hprev
      · rintro ⟨k, hk, hget, hprev⟩
        cases k with
        | zero => simp at hget
        | succ m =>
            refine ⟨m, by omega, by simpa using hget, ?_⟩
            rw [prevAt_cons] at hprev
            exact hprev
  | some t :: rest, prev, j, i, s => by
      rw [dedupDirect]
      have hmem := mem_dedupDirect rest (some t) (j + 1) i s
      rw [List.mem_append, hmem]
      constructor
      · rintro (hfirst | ⟨k, hk, hget, hprev⟩)
        · by_cases hp : prev = some t
          · rw [if_pos hp] at hfirst
            simp at hfirst
          · rw [if_neg hp] at hfirst
            simp at hfirst
            obtain ⟨hi, hs⟩ := hfirst
            refine ⟨0, by omega, by simp [hs], ?_⟩
            simpa [prevAt, hs] using hp
        · refine ⟨k + 1, by omega, by simpa using hget, ?_⟩
          rw [prevAt_cons]
          exact hprev
      · rintro ⟨k, hk, hget, hprev⟩
        cases k with
        | zero =>
            left
            have hs : t = s := by simpa using hget
            have hp : prev ≠ some t := by
              simpa [prevAt, hs] using hprev
            rw [if_neg hp]
            simp [hk, hs]
        | succ m =>
            right
            refine ⟨m, by omega, by simpa using hget, ?_⟩
            rw [prevAt_cons] at hprev
            exact hprev

theorem join_ne_some_iff (o : Option (Option α)) (s : α) :
    o.join ≠ some s ↔ o ≠ some (some s) := by
  cases o with
  | none => simp
  | some c =>
      cases c with
      | none => simp
      | some t => simp

theorem mem_deduplicate_signals (labels : List (Option α)) (i : ℕ) (s : α) :
    (i, s) ∈ deduplicate_signals labels ↔
      labels.get? i = some (some s) ∧ prevAt none labels i ≠ some s := by
  have hbr := dedupWalk_filt labels 0 none (by intro pj ps h; cases h)
  have : deduplicate_signals labels = dedupDirect none 0 labels := by
    rw [deduplicate_signals, hbr]
    rfl
  rw [this, mem_dedupDirect labels none 0 i s]
  constructor
  · rintro ⟨k, hk, hget, hprev⟩
    have : i = k := by omega
    subst this
    exact ⟨hget, hprev⟩
  · rintro ⟨hget, hprev⟩
    exact ⟨i, by omega, hget, hprev⟩

end Dedup

namespace Dedup

variable {α : Type} [DecidableEq α]

/-- C3: a signal row is kept by deduplication exactly when it is the first
row of its run — either at position 0 or with the immediately preceding row
carrying a different label or no label — so exactly the first row of every
maximal run of consecutive identical non-empty labels is kept, and a run
broken by even one label-free or differently-labeled row starts again. -/
theorem dedup_keeps_first_of_run (labels : List (Option α)) (i : ℕ) (s : α)
    (h : labels.get? i = some (some s)) :
    ((i, s) ∈ deduplicate_signals labels ↔
      (i = 0 ∨ labels.get? (i - 1) ≠ some (some s))) := by
  rw [mem_deduplicate_signals]
  constructor
  · rintro ⟨_, hprev⟩
    cases i with
    | zero => exact Or.inl rfl
    | succ m =>
        right
        have hjoin : (labels.get? m).join ≠ some s := by
          simpa [prevAt] using hprev
        simpa using (join_ne_some_iff (labels.get? m) s).mp hjoin
  · intro hor
    refine ⟨h, ?_⟩
    cases i with
    | zero => simp [prevAt]
    | succ m =>
        rcases hor with h0 | hne
        · exact absurd h0 (by simp)
        · have : labels.get? m ≠ some (some s) := by simpa using hne
          have hjoin := (join_ne_some_iff (labels.get? m) s).mpr this
          simpa [prevAt] using hjoin

theorem dedup_keeps_first_of_run_witness :
    ([some 0, none, some 0] : List (Option ℕ)).get? 2 = some (some 0) ∧
    (2, 0) ∈ deduplicate_signals [some 0, none, some 0] :=
  ⟨by decide,
    (dedup_keeps_first_of_run [some 0, none, some 0] 2 0 (by decide)).mpr
      (Or.inr (by decide))⟩

/-- Adjacent kept events must not be a consecutive identical pair: the walk
keeps a row only when it is not both positionally adjacent to and identically
labeled with the previous signal row. -/
def sepKeep : (ℕ × α) → (ℕ × α) → Prop :=
  fun a b => ¬(b.1 - a.1 = 1 ∧ b.2 = a.2)

theorem dedupWalk_of_chain :
    ∀ (l : List (ℕ × α)) (prev : Option (ℕ × α)),
      List.Chain' sepKeep l →
      (∀ (pj : ℕ) (ps : α) (i : ℕ) (s : α), prev = some (pj, ps) →
        l.head? = some (i, s) → ¬(i - pj = 1 ∧ s = ps)) →
      dedupWalk prev l = l
  | [], prev, _, _ => by cases prev <;> rfl
  | (i, s) :: rest, prev, hchain, hhead => by
      have hsplit := List.chain'_cons'.mp hchain
      have ihrest : dedupWalk (some (i, s)) rest = rest := by
        apply dedupWalk_of_chain rest (some (i, s)) hsplit.2
        intro pj ps i2 s2 hp hh
        obtain ⟨hpj, hps⟩ : pj = i ∧ ps = s := by
          have := hp
          simp at this
          exact ⟨this.1.symm, this.2.symm⟩
        subst hpj
        subst hps
        have := hsplit.1 (i2, s2) (by
          cases rest with
          | nil => simp at hh
          | cons b l2 =>
              simp at hh
              simp [hh])
        intro hc
        exact this ⟨hc.1, hc.2⟩
      cases prev with
      | none =>
          simp [dedupWalk, ihrest]
      | some pr =>
          obtain ⟨pj, ps⟩ := pr
          have hng : ¬(i - pj = 1 ∧ s = ps) := hhead pj ps i s rfl rfl
          have hkeep : (!(decide (i - pj = 1) && decide (s = ps))) = true := by
            by_cases ha : i - pj = 1
            · have hb : ¬ s = ps := fun hb => hng ⟨ha, hb⟩
              simp [ha, hb]
            · simp [ha]
          simp [dedupWalk, hkeep, ihrest]

/-- C4: deduplication is idempotent — running the walk again over its own
output (whose rows all carry labels, so the filter keeps them all) returns
the output unchanged — and no two kept events carry identical labels at
positionally-adjacent source rows. -/
theorem dedup_idempotent_no_adjacent (labels : List (Option α)) :
    dedupWalk none (deduplicate_signals labels) = deduplicate_signals labels ∧
    (∀ (i : ℕ) (s : α), (i, s) ∈ deduplicate_signals labels →
      (i + 1, s) ∉ deduplicate_signals labels) := by
  have hno : ∀ (i : ℕ) (s : α), (i, s) ∈ deduplicate_signals labels →
      (i + 1, s) ∉ deduplicate_signals labels := by
    intro i s hmem hmem2
    have h1 := (mem_deduplicate_signals labels i s).mp hmem
    have h2 := (mem_deduplicate_signals labels (i + 1) s).mp hmem2
    have hjoin : (labels.get? i).join ≠ some s := by
      simpa [prevAt] using h2.2
    rw [join_ne_some_iff] at hjoin
    exact hjoin h1.1
  refine ⟨?_, hno⟩
  apply dedupWalk_of_chain
  · apply List.Pairwise.chain'
    apply List.pairwise_of_forall_mem_list
    rintro ⟨ia, sa⟩ ha ⟨ib, sb⟩ hb
    intro hc
    obtain ⟨hdiff, hsame⟩ := hc
    simp only at hdiff hsame
    have hib : ib = ia + 1 := by omega
    subst hib
    subst hsame
    exact hno ia sb ha hb
  · intro pj ps i s hp
    simp at hp

theorem dedup_idempotent_no_adjacent_witness :
    (0, 0) ∈ deduplicate_signals ([some 0, some 0] : List (Option ℕ)) ∧
    (1, 0) ∉ deduplicate_signals ([some 0, some 0] : List (Option ℕ)) :=
  ⟨by decide,
    (dedup_idempotent_no_adjacent [some 0, some 0]).2 0 0 (by decide)⟩

end Dedup

namespace CIS2560Indicators

open Indicators

/-- The columns of the indicator frame consumed by
`CIS2560Indicators.generate_signals`: close and open prices and the SMA
columns added by `compute_indicators` (missing over each warm-up prefix). -/
structure CISFrame where
  close : List (Option ℚ)
  openPrice : List (Option ℚ)
  sma5 : List (Option ℚ)
  sma25 : List (Option ℚ)
  volSma5 : List (Option ℚ)
  volSma60 : List (Option ℚ)

/-- `is_ma_up`: today's MA strictly above yesterday's. -/
def is_ma_up (ma : List (Option ℚ)) : List Bool :=
  List.zipWith oGT ma (shift1 ma)

/-- `is_ma_down`: today's MA strictly below yesterday's. -/
def is_ma_down (ma : List (Option ℚ)) : List Bool :=
  List.zipWith oLT ma (shift1 ma)

/-- pandas `Series.pct_change()`: `cur / prev - 1`, missing when either cell
is missing or the previous value is zero (where the float result is not a
finite number). -/
def pct_change (l : List (Option ℚ)) : List (Option ℚ) :=
  List.zipWith
    (fun cur prev =>
      match cur, prev with
      | some c, some p => if p = 0 then none else some (c / p - 1)
      | _, _ => none)
    l (shift1 l)

/-- Whether a possibly-missing change rate has absolute value below the
threshold; a missing rate compares false. -/
def absBelow (r : Option ℚ) (threshold : ℚ) : Bool :=
  match r with
  | some x => decide (|x| < threshold)
  | none => false

/-- A trailing all-of window:
`(bs.rolling(window=w).min() == 1)` over a boolean column — true at `i`
exactly when a full window of `w` cells ending at `i` exists and every cell
in it is true. -/
def rollAllTrue (w : ℕ) (bs : List Bool) : List Bool :=
  (List.range bs.length).map fun i =>
    decide (w ≤ i + 1) && ((bs.take (i + 1)).drop (i + 1 - w)).all (fun b => b)

/-- `is_ma_flat`: three consecutive days of absolute day-over-day MA change
rate below 0.003. -/
def is_ma_flat (ma : List (Option ℚ)) : List Bool :=
  rollAllTrue 3 ((pct_change ma).map (fun r => absBelow r (3 / 1000)))

/-- `is_consecutive_bullish`: two consecutive bars with close above open. -/
def is_consecutive_bullish (close openPrice : List (Option ℚ)) : List Bool :=
  rollAllTrue 2 (List.zipWith oGT close openPrice)

/-- The reverse-buy column: close below SMA25, SMA25 flat or rising, SMA5
rising, consecutive bullish bars; gated by volume confirmation when
enabled. -/
def signal_reverse_buy (f : CISFrame) (enable_volume_confirmation : Bool) :
    List Bool :=
  let base :=
    andL (andL (andL (List.zipWith oLT f.close f.sma25)
      (orL (is_ma_flat f.sma25) (is_ma_up f.sma25)))
      (is_ma_up f.sma5))
      (is_consecutive_bullish f.close f.openPrice)
  if enable_volume_confirmation
    then andL base (List.zipWith oGT f.volSma5 f.volSma60)
    else base

/-- The buy column: SMA25 flat or rising, SMA5 above SMA25, close above SMA5;
gated by volume confirmation when enabled. -/
def signal_buy (f : CISFrame) (enable_volume_confirmation : Bool) : List Bool :=
  let base :=
    andL (andL (orL (is_ma_flat f.sma25) (is_ma_up f.sma25))
      (List.zipWith oGT f.sma5 f.sma25))
      (List.zipWith oGT f.close f.sma5)
  if enable_volume_confirmation
    then andL base (List.zipWith oGT f.volSma5 f.volSma60)
    else base

/-- The sell column: SMA5 falling and close below SMA5 — defined without any
volume gating. -/
def signal_sell (f : CISFrame) : List Bool :=
  andL (is_ma_down f.sma5) (List.zipWith oLT f.close f.sma5)

/-- `CIS2560Indicators.generate_signals`: the triple of reverse-buy, buy and
sell boolean columns. -/
def generate_signals (f : CISFrame) (enable_volume_confirmation : Bool) :
    List Bool × List Bool × List Bool :=
  (signal_reverse_buy f enable_volume_confirmation,
    signal_buy f enable_volume_confirmation,
    signal_sell f)

theorem getD_false_get? :
    ∀ (l : List Bool) (i : ℕ), (l.getD i false = true ↔ l.get? i = some true)
  | [], i => by simp [List.getD]
  | b :: l, 0 => by simp [List.getD]
  | b :: l, i + 1 => by
      simpa [List.getD] using getD_false_get? l i

theorem andL_get?_true (a b : List Bool) (i : ℕ)
    (h : (andL a b).get? i = some true) :
    a.get? i = some true ∧ b.get? i = some true := by
  rw [andL, zipWith_get? _ a b i] at h
  cases ha : a.get? i with
  | none => rw [ha] at h; simp at h
  | some x =>
      cases hb : b.get? i with
      | none => rw [ha, hb] at h; simp at h
      | some y =>
          rw [ha, hb] at h
          simp at h
          simp [h.1, h.2]

theorem oLT_eq_true (u v : Option ℚ) (h : oLT u v = true) :
    ∃ x y : ℚ, u = some x ∧ v = some y ∧ x < y := by
  cases u with
  | none => simp [oLT] at h
  | some x =>
      cases v with
      | none => simp [oLT] at h
      | some y =>
          refine ⟨x, y, rfl, rfl, ?_⟩
          simpa [oLT] using h

theorem oGT_eq_true (u v : Option ℚ) (h : oGT u v = true) :
    ∃ x y : ℚ, u = some x ∧ v = some y ∧ y < x := by
  cases u with
  | none => simp [oGT] at h
  | some x =>
      cases v with
      | none => simp [oGT] at h
      | some y =>
          refine ⟨x, y, rfl, rfl, ?_⟩
          simpa [oGT] using h

theorem zip_cmp_get?_true (cmp : Option ℚ → Option ℚ → Bool)
    (a b : List (Option ℚ)) (i : ℕ)
    (h : (List.zipWith cmp a b).get? i = some true) :
    ∃ u v : Option ℚ, a.get? i = some u ∧ b.get? i = some v ∧
      cmp u v = true := by
  rw [zipWith_get? cmp a b i] at h
  cases ha : a.get? i with
  | none => rw [ha] at h; simp at h
  | some u =>
      cases hb : b.get? i with
      | none => rw [ha, hb] at h; simp at h
      | some v =>
          rw [ha, hb] at h
          simp at h
          exact ⟨u, v, rfl, rfl, h⟩

end CIS2560Indicators

namespace CIS2560Indicators

open Indicators

/-- C7: for every input frame and either setting of the volume-confirmation
toggle, `generate_signals` never sets the buy and reverse-buy flags both true
on the same bar: buy needs close above SMA5 and SMA5 above SMA25, while
reverse-buy needs close below SMA25, which cannot hold together. -/
theorem cis_buy_and_reverse_buy_never_both (f : CISFrame) (vc : Bool) (i : ℕ) :
    ((generate_signals f vc).1.getD i false &&
      (generate_signals f vc).2.1.getD i false) = false := by
  by_contra hcon
  have h1 : (generate_signals f vc).1.getD i false = true := by
    cases h : (generate_signals f vc).1.getD i false
    · rw [h] at hcon; simp at hcon
    · rfl
  have h2 : (generate_signals f vc).2.1.getD i false = true := by
    cases h : (generate_signals f vc).2.1.getD i false
    · rw [h] at hcon; simp at hcon
    · rfl
  have hrb : (signal_reverse_buy f vc).get? i = some true :=
    (getD_false_get? _ i).mp h1
  have hb : (signal_buy f vc).get? i = some true :=
    (getD_false_get? _ i).mp h2
  have hrb0 : (andL (andL (andL (List.zipWith oLT f.close f.sma25)
      (orL (is_ma_flat f.sma25) (is_ma_up f.sma25))) (is_ma_up f.sma5))
      (is_consecutive_bullish f.close f.openPrice)).get? i = some true := by
    cases vc with
    | false => simpa [signal_reverse_buy] using hrb
    | true =>
        rw [signal_reverse_buy] at hrb
        simp only [if_true] at hrb
        exact (andL_get?_true _ _ i hrb).1
  have hb0 : (andL (andL (orL (is_ma_flat f.sma25) (is_ma_up f.sma25))
      (List.zipWith oGT f.sma5 f.sma25))
      (List.zipWith oGT f.close f.sma5)).get? i = some true := by
    cases vc with
    | false => simpa [signal_buy] using hb
    | true =>
        rw [signal_buy] at hb
        simp only [if_true] at hb
        exact (andL_get?_true _ _ i hb).1
  have ha1 := andL_get?_true _ _ i hrb0
  have ha2 := andL_get?_true _ _ i ha1.1
  have ha3 := andL_get?_true _ _ i ha2.1
  have hc1 := ha3.1
  have hbb1 := andL_get?_true _ _ i hb0
  have hbb2 := andL_get?_true _ _ i hbb1.1
  obtain ⟨u1, v1, hgc1, hgs25a, hcmp1⟩ :=
    zip_cmp_get?_true oLT f.close f.sma25 i hc1
  obtain ⟨cv, s25v, hu1, hv1, hlt1⟩ := oLT_eq_true u1 v1 hcmp1
  obtain ⟨u2, v2, hgs5a, hgs25b, hcmp2⟩ :=
    zip_cmp_get?_true oGT f.sma5 f.sma25 i hbb2.2
  obtain ⟨s5v, s25w, hu2, hv2, hlt2⟩ := oGT_eq_true u2 v2 hcmp2
  obtain ⟨u3, v3, hgc2, hgs5b, hcmp3⟩ :=
    zip_cmp_get?_true oGT f.close f.sma5 i hbb1.2
  obtain ⟨cw, s5w, hu3, hv3, hlt3⟩ := oGT_eq_true u3 v3 hcmp3
  have hceq : cv = cw := by
    rw [hu1] at hgc1
    rw [hu3] at hgc2
    rw [hgc1] at hgc2
    simpa using hgc2
  have hs25eq : s25v = s25w := by
    rw [hv1] at hgs25a
    rw [hv2] at hgs25b
    rw [hgs25a] at hgs25b
    simpa using hgs25b
  have hs5eq : s5v = s5w := by
    rw [hu2] at hgs5a
    rw [hv3] at hgs5b
    rw [hgs5a] at hgs5b
    simpa using hgs5b
  subst hceq
  subst hs25eq
  subst hs5eq
  linarith

/-- C8: the sell column of `generate_signals` is identical whether volume
confirmation is enabled or not — the sell signal is never gated by the
volume condition. -/
theorem cis_sell_independent_of_volume_toggle (f : CISFrame) :
    (generate_signals f true).2.2 = (generate_signals f false).2.2 := rfl

end CIS2560Indicators

namespace RSMACDIndicators

open Indicators

/-- Greater-or-equal on possibly-missing cells. -/
def oGE : Option ℚ → Option ℚ → Bool
  | some a, some b => decide (b ≤ a)
  | _, _ => false

/-- Oscillator cell strictly above a scalar threshold. -/
def oGTs (r : Option ℚ) (t : ℚ) : Bool :=
  match r with
  | some x => decide (t < x)
  | none => false

/-- Oscillator cell strictly below a scalar threshold. -/
def oLTs (r : Option ℚ) (t : ℚ) : Bool :=
  match r with
  | some x => decide (x < t)
  | none => false

/-- Oscillator cell at or below a scalar threshold. -/
def oLEs (r : Option ℚ) (t : ℚ) : Bool :=
  match r with
  | some x => decide (x ≤ t)
  | none => false

/-- Oscillator cell at or above a scalar threshold. -/
def oGEs (r : Option ℚ) (t : ℚ) : Bool :=
  match r with
  | some x => decide (t ≤ x)
  | none => false

/-- The six boolean signal columns of `RSMACDIndicators.generate_signals`. -/
structure RSMACDSignals where
  green_arrow : List Bool
  green_triangle : List Bool
  green_ball : List Bool
  red_arrow : List Bool
  red_triangle : List Bool
  red_ball : List Bool

/-- `RSMACDIndicators.generate_signals`: turning-point and crossing signals
from the rsmacd oscillator, comparing each bar with the one and two bars
before it. -/
def generate_signals (rsmacd : List (Option ℚ)) : RSMACDSignals :=
  let prev1 := shift1 rsmacd
  let prev2 := shift1 prev1
  let turning_up :=
    andL (List.zipWith oGT rsmacd prev1) (List.zipWith oLE prev1 prev2)
  let turning_down :=
    andL (List.zipWith oLT rsmacd prev1) (List.zipWith oGE prev1 prev2)
  { green_arrow := turning_up
    green_triangle :=
      andL (rsmacd.map (fun r => oGTs r 30)) (prev1.map (fun r => oLEs r 30))
    green_ball :=
      andL (andL (rsmacd.map (fun r => oGTs r 50))
        (prev1.map (fun r => oLEs r 50))) turning_up
    red_arrow := turning_down
    red_triangle :=
      andL (rsmacd.map (fun r => oLTs r 70)) (prev1.map (fun r => oGEs r 70))
    red_ball :=
      andL (andL (rsmacd.map (fun r => oLTs r 50))
        (prev1.map (fun r => oGEs r 50))) turning_down }

/-- C10: at every row, a green-ball signal implies the green-arrow (turning
up) signal, and a red-ball signal implies the red-arrow (turning down)
signal: each ball column conjoins the corresponding arrow condition. -/
theorem rsmacd_ball_implies_arrow (rsmacd : List (Option ℚ)) (i : ℕ) :
    ((generate_signals rsmacd).green_ball.getD i false = true →
      (generate_signals rsmacd).green_arrow.getD i false = true) ∧
    ((generate_signals rsmacd).red_ball.getD i false = true →
      (generate_signals rsmacd).red_arrow.getD i false = true) := by
  constructor
  · intro hb
    have h1 := (CIS2560Indicators.getD_false_get? _ i).mp hb
    simp only [generate_signals] at h1
    have h2 := (CIS2560Indicators.andL_get?_true _ _ i h1).2
    apply (CIS2560Indicators.getD_false_get? _ i).mpr
    simp only [generate_signals]
    exact h2
  · intro hb
    have h1 := (CIS2560Indicators.getD_false_get? _ i).mp hb
    simp only [generate_signals] at h1
    have h2 := (CIS2560Indicators.andL_get?_true _ _ i h1).2
    apply (CIS2560Indicators.getD_false_get? _ i).mpr
    simp only [generate_signals]
    exact h2

theorem rsmacd_ball_implies_arrow_witness :
    (generate_signals [some 60, some 40, some 55]).green_ball.getD 2 false
        = true ∧
    (generate_signals [some 60, some 40, some 55]).green_arrow.getD 2 false
        = true :=
  ⟨by decide, (rsmacd_ball_implies_arrow [some 60, some 40, some 55] 2).1
    (by decide)⟩

end RSMACDIndicators

namespace StatisticalIndicators

/-- pandas `Series.mean()`: the arithmetic mean, missing for an empty
series. -/
def mean (l : List ℚ) : Option ℚ :=
  if l.length = 0 then none else some (l.sum / l.length)

/-- pandas `Series.std()` squared — the sample variance with `ddof = 1` —
missing when fewer than two observations exist. -/
def sampleVariance (l : List ℚ) : Option ℚ :=
  if l.length ≤ 1 then none
  else
    match mean l with
    | some m => some ((l.map (fun x => (x - m) ^ 2)).sum / (l.length - 1))
    | none => none

/-- Float division with the non-finite results (dividing by a zero standard
deviation gives inf or NaN) modelled as missing. -/
def fdiv (a b : ℚ) : Option ℚ :=
  if b = 0 then none else some (a / b)

/-- `StatisticalIndicators.sharpe_ratio`: mean excess return over the
standard deviation of the excess returns, annualized by the square root of
252.  The square-root function on the variance is abstracted (its values are
irrational in general); no branch guards the zero-deviation case — the code
divides regardless. -/
def sharpe_ratio (sqrt : ℚ → ℚ) (returns : List ℚ)
    (risk_free_rate : ℚ) : Option ℚ :=
  let excess := returns.map (fun r => r - risk_free_rate)
  match mean excess, sampleVariance excess with
  | some m, some v => (fdiv m (sqrt v)).map (fun x => x * sqrt 252)
  | _, _ => none

/-- C9: contrary to the claim, `sharpe_ratio` has no guard for a zero
standard deviation: on the constant returns series `[1/100, 1/100, 1/100]`
(whose excess returns have standard deviation 0) the computation divides by
zero and the result is the non-finite marker, for every square-root function
with `sqrt 0 = 0`. -/
theorem sharpe_ratio_zero_std_unguarded (sqrt : ℚ → ℚ) (h : sqrt 0 = 0) :
    sharpe_ratio sqrt [1 / 100, 1 / 100, 1 / 100] 0 = none := by
  have hm : mean [(1 : ℚ) / 100, 1 / 100, 1 / 100] = some (1 / 100) := by
    rw [mean]
    norm_num
  have hv : sampleVariance [(1 : ℚ) / 100, 1 / 100, 1 / 100] = some 0 := by
    rw [sampleVariance, hm]
    norm_num
  rw [sharpe_ratio]
  norm_num [hm, hv, fdiv, h]

theorem sharpe_ratio_zero_std_unguarded_witness :
    (fun _ : ℚ => (0 : ℚ)) 0 = 0 ∧
    sharpe_ratio (fun _ : ℚ => (0 : ℚ)) [1 / 100, 1 / 100, 1 / 100] 0 =
      none :=
  ⟨rfl, sharpe_ratio_zero_std_unguarded (fun _ : ℚ => (0 : ℚ)) rfl⟩

end StatisticalIndicators
